import Mathlib

/-
Verification of the cluster-mode dispatch layer of the ceresdb client
(src/db_client/cluster.rs and src/errors.rs), as a shallow embedding.

Modelling choices:
  * `Endpoint` and metric names are strings, as in the source.
  * Rust `HashMap`s are modelled as association lists; iteration order,
    unspecified for Rust `HashMap`, is the list order of the model.
  * The router and the single-node clients are external capabilities; they
    are passed in as functions.  `Router.routeRes` may fail with an `Error`
    (the `Err` branch of `router.route`), otherwise it yields one
    `Option Endpoint` per position.
  * The async fan-out is modelled by evaluating the per-endpoint network
    function on each partition group; `join_all` preserves order, so the
    result list is in partition order.
  * A Rust panic (`eps[0]` on an empty vector, `unwrap` on a failed map
    lookup) is modelled by the whole operation returning `none`.
  * Observable side effects (router.route calls, router.evict calls,
    dispatched network sub-requests) are collected in an effects record.
-/

namespace CeresDB

/-- Modelled from the spec: an endpoint is an opaque network address
identifier with string equality (the model for `model::route::Endpoint`,
whose source file is not part of the two core files). -/
abbrev Endpoint := String

/-- Modelled from the spec: a metric/table name, a string-like key. -/
abbrev Metric := String

/-- Modelled from the spec: `WriteResponse` is a pair of row-level
success and failure counts; `WriteResponse::new(success, failed)` is the
constructor used by the merge. -/
structure WriteResponse where
  success : Nat
  failed : Nat
deriving DecidableEq, Repr

/-- The error taxonomy of `src/errors.rs`.  `ServerError { code, msg }` is
flattened into the `server` constructor, `AuthFailStatus` into `authFail`,
and the `ClusterWriteError` payload (`ok` pair plus `errors` list) into the
`clusterWriteError` constructor.  `tonic::Status` and the boxed `Connect`
source are abstracted as strings. -/
inductive Error where
  | server (code : Nat) (msg : String)
  | rpc (status : String)
  | connect (addr : String) (source : String)
  | client (msg : String)
  | authFail (code : Nat) (msg : String)
  | clusterWriteError (okMetrics : List Metric) (okResp : WriteResponse)
      (errors : List (List Metric × Error))
  | unknown (msg : String)

/-- Whether an error is the `Client` kind of `src/errors.rs`. -/
def Error.isClient : Error → Bool
  | .client _ => true
  | _ => false

/-- The `ClusterWriteError` aggregate of `src/errors.rs`: the `ok` pair
`(metrics, write_response)` and the `errors` list `[(metrics, error)]`. -/
structure ClusterWriteError where
  okMetrics : List Metric
  okResp : WriteResponse
  errors : List (List Metric × Error)

/-- `ClusterWriteError::all_ok`: the error list is empty. -/
def ClusterWriteError.all_ok (c : ClusterWriteError) : Bool :=
  c.errors.isEmpty

/-- Wrapping an aggregate into `Error::ClusterWriteError`. -/
def ClusterWriteError.toError (c : ClusterWriteError) : Error :=
  .clusterWriteError c.okMetrics c.okResp c.errors

/-- Accumulator of the `From<Vec<(Vec<String>, Result<WriteResponse>)>>`
loop in `src/errors.rs`: running success/failure totals, collected ok
metrics and collected error entries. -/
structure MergeAcc where
  success_total : Nat
  failed_total : Nat
  ok_metrics : List Metric
  errs : List (List Metric × Error)

/-- One iteration of the merge loop of `src/errors.rs`: an `Ok` outcome
adds its counts and appends its metrics to the ok side, an `Err` outcome
appends one `(metrics, error)` record. -/
def mergeStep (acc : MergeAcc) (p : List Metric × Except Error WriteResponse) :
    MergeAcc :=
  match p.2 with
  | .ok write_resp =>
      { acc with
        success_total := acc.success_total + write_resp.success
        failed_total := acc.failed_total + write_resp.failed
        ok_metrics := acc.ok_metrics ++ p.1 }
  | .error e => { acc with errs := acc.errs ++ [(p.1, e)] }

/-- The `From<Vec<(Vec<String>, Result<WriteResponse>)>>` conversion of
`src/errors.rs` building a `ClusterWriteError` from the per-endpoint
`(metrics, result)` pairs. -/
def clusterWriteErrorFrom
    (wirte_results : List (List Metric × Except Error WriteResponse)) :
    ClusterWriteError :=
  let acc := wirte_results.foldl mergeStep
    { success_total := 0, failed_total := 0, ok_metrics := [], errs := [] }
  { okMetrics := acc.ok_metrics
    okResp := { success := acc.success_total, failed := acc.failed_total }
    errors := acc.errs }

/-- Modelled from the spec: the router capability.  `routeRes names` is the
outcome of `router.route(names, ctx)`: an error, or one `Option Endpoint`
per name.  (`evict` is a side effect; the dispatcher records its argument
in the effects trace instead.) -/
structure Router where
  routeRes : List Metric → Except Error (List (Option Endpoint))

/-- Modelled from the spec: a `QueryRequest` carries the non-empty list of
target metric names (other query parameters are irrelevant to dispatch and
omitted). -/
structure QueryRequest where
  metrics : List Metric
deriving DecidableEq, Repr

/-- Observable behaviour of one `query` call: its result plus the router
route calls, router evict calls, and network dispatches it made. -/
structure QueryEffects (Q : Type) where
  result : Except Error Q
  routeCalls : List (List Metric)
  evictCalls : List (List Metric)
  networkCalls : List Endpoint

/-- `ClusterImpl::query` of `src/db_client/cluster.rs`.  `net ep req` is
the single-node call `clnt.query_internal(ctx, req.clone())` on the pooled
client for `ep`.  Returns `none` when the code would panic (the unchecked
`eps[0]` on an empty routing result). -/
def query {Q : Type} (router : Router) (net : Endpoint → QueryRequest → Except Error Q)
    (req : QueryRequest) : Option (QueryEffects Q) :=
  if req.metrics.isEmpty then
    some { result := .error (.unknown "Metrics in query request can't be empty in cluster mode")
           routeCalls := [], evictCalls := [], networkCalls := [] }
  else
    match router.routeRes req.metrics with
    | .error e =>
        some { result := .error e
               routeCalls := [req.metrics], evictCalls := [], networkCalls := [] }
    | .ok eps =>
        match eps[0]? with
        | none => none
        | some none =>
            some { result := .error (.unknown "Metric doesn't have corresponding endpoint")
                   routeCalls := [req.metrics], evictCalls := [], networkCalls := [] }
        | some (some ep) =>
            match net ep req with
            | .ok resp =>
                some { result := .ok resp
                       routeCalls := [req.metrics], evictCalls := [], networkCalls := [ep] }
            | .error e =>
                some { result := .error e
                       routeCalls := [req.metrics], evictCalls := [req.metrics]
                       networkCalls := [ep] }

/-- Modelled from the spec: a `WriteRequest` maps metric names to
write-entry payloads (a `HashMap` in the source, an association list
here); the payload type is abstract. -/
structure WriteRequest (α : Type) where
  write_entries : List (Metric × α)

/-- The key list of a write request, as `write_entries.iter().map(.0)`. -/
def shouldRoutes {α : Type} (req : WriteRequest α) : List Metric :=
  req.write_entries.map (fun p => p.1)

/-- `HashMap::insert` on the association-list model: replace the value at
an existing key, otherwise append the new pair. -/
def insertEntry {α : Type} (es : List (Metric × α)) (m : Metric) (v : α) :
    List (Metric × α) :=
  if es.any (fun p => p.1 == m) then
    es.map (fun p => if p.1 == m then (m, v) else p)
  else
    es ++ [(m, v)]

/-- Partition state of `ClusterImpl::write`: `partition_by_endpoint` (one
group of write entries per endpoint, in first-seen order) and
`no_corresponding_endpoints`. -/
structure Partition (α : Type) where
  groups : List (Endpoint × List (Metric × α))
  unroutable : List Metric

/-- One step of the partition loop of `ClusterImpl::write` over a routed
`(endpoint-option, metric)` pair: a routed metric is inserted (with the
payload looked up in the original request, `unwrap` modelled as `none` on
a missed lookup) into its endpoint's group, creating the group when it is
new; an unroutable metric is pushed onto `no_corresponding_endpoints`. -/
def partitionStep {α : Type} (entries : List (Metric × α)) (st : Partition α)
    (p : Option Endpoint × Metric) : Option (Partition α) :=
  match p.1 with
  | some ep =>
      match entries.lookup p.2 with
      | none => none
      | some v =>
          if st.groups.any (fun g => g.1 == ep) then
            some { st with
              groups := st.groups.map
                (fun g => if g.1 == ep then (g.1, insertEntry g.2 p.2 v) else g) }
          else
            some { st with groups := st.groups ++ [(ep, [(p.2, v)])] }
  | none => some { st with unroutable := st.unroutable ++ [p.2] }

/-- The full partition of `ClusterImpl::write`: fold `partitionStep` over
`endpoints.zip(should_routes)` starting from the empty partition. -/
def partitionOf {α : Type} (entries : List (Metric × α))
    (endpoints : List (Option Endpoint)) (names : List Metric) :
    Option (Partition α) :=
  (endpoints.zip names).foldlM (partitionStep entries)
    { groups := [], unroutable := [] }

/-- The `(metrics, result)` pairs collected by `ClusterImpl::write`: one
pair per endpoint group (its key list and its sub-write's outcome), then
the pushed `(no_corresponding_endpoints, Err(Unknown))` entry. -/
def pairsOf {α : Type} (net : Endpoint → WriteRequest α → Except Error WriteResponse)
    (part : Partition α) : List (List Metric × Except Error WriteResponse) :=
  part.groups.map
      (fun g => (g.2.map (fun q => q.1), net g.1 { write_entries := g.2 }))
    ++ [(part.unroutable,
         .error (.unknown "Metrics don't have corresponding endpoints"))]

/-- The eviction list of `ClusterImpl::write`: the flattened metric sets
of exactly those pairs whose outcome is `Err(Error::Server(e))` with
`should_refresh(e.code, e.msg)`. -/
def evictsOf (srf : Nat → String → Bool)
    (pairs : List (List Metric × Except Error WriteResponse)) : List Metric :=
  (pairs.filterMap (fun p =>
    match p.2 with
    | .error (.server code msg) => if srf code msg then some p.1 else none
    | _ => none)).flatten

/-- Observable behaviour of one `write` call: its result plus the router
route calls, router evict calls, and dispatched per-endpoint sub-writes. -/
structure WriteEffects (α : Type) where
  result : Except Error WriteResponse
  routeCalls : List (List Metric)
  evictCalls : List (List Metric)
  networkCalls : List (Endpoint × WriteRequest α)

/-- `ClusterImpl::write` of `src/db_client/cluster.rs`.  `srf` is the
`should_refresh` predicate (its body lives outside the two core files),
`net ep subreq` is the single-node call `clnt.write_internal(ctx, req)` on
the pooled client for `ep`.  Returns `none` when the code would panic. -/
def write {α : Type} (srf : Nat → String → Bool) (router : Router)
    (net : Endpoint → WriteRequest α → Except Error WriteResponse)
    (req : WriteRequest α) : Option (WriteEffects α) :=
  let should_routes := shouldRoutes req
  match router.routeRes should_routes with
  | .error e =>
      some { result := .error e
             routeCalls := [should_routes], evictCalls := [], networkCalls := [] }
  | .ok endpoints =>
      match partitionOf req.write_entries endpoints should_routes with
      | none => none
      | some part =>
          let pairs := pairsOf net part
          let cluster_error := clusterWriteErrorFrom pairs
          some { result :=
                   if cluster_error.all_ok then .ok cluster_error.okResp
                   else .error cluster_error.toError
                 routeCalls := [should_routes]
                 evictCalls := [evictsOf srf pairs]
                 networkCalls := part.groups.map
                   (fun g => (g.1, { write_entries := g.2 })) }

/-
Interleaving model of `StandalonePool::get_or_create` for one fixed
endpoint.  The `DashMap` gives per-key atomicity, so the entry for one
endpoint is a single shared slot.  A caller executes two atomic actions,
exactly as the source does:
  * `pool.get(endpoint)`: observe the slot; if it holds a handle, return
    a clone of it at once;
  * otherwise `pool.entry(endpoint).or_insert(Arc::new(...)).clone()`:
    construct a fresh handle, then atomically return the occupant if the
    slot was filled meanwhile (the fresh handle is dropped, not retained)
    or fill the slot with the fresh handle and return it.
Handles are identified by the constructing caller's index, which models
`Arc` pointer identity.
-/

/-- Program counter of one `get_or_create` caller: before the initial
`get`, between the `get` that observed a missing entry and the
`entry().or_insert(...)`, or finished holding the returned handle. -/
inductive CallerState where
  | start
  | racing
  | done (ret : Nat)
deriving DecidableEq, Repr

/-- Shared state of the race on one endpoint's pool entry: the retained
handle (if any), each caller's program counter, and the identities of all
handles constructed so far. -/
structure PoolRace where
  slot : Option Nat
  callers : List CallerState
  constructed : List Nat
deriving DecidableEq, Repr

/-- One atomic action of caller `i` in `StandalonePool::get_or_create`:
from `start`, the `pool.get` observation; from `racing`, the construction
plus atomic `entry().or_insert` (returning the occupant when the slot got
filled in between, otherwise retaining the fresh handle `i`). -/
def raceStep (st : PoolRace) (i : Nat) : PoolRace :=
  match st.callers[i]? with
  | none => st
  | some .start =>
      match st.slot with
      | some h => { st with callers := st.callers.set i (.done h) }
      | none => { st with callers := st.callers.set i .racing }
  | some .racing =>
      match st.slot with
      | some h =>
          { st with callers := st.callers.set i (.done h)
                    constructed := st.constructed ++ [i] }
      | none =>
          { st with slot := some i
                    callers := st.callers.set i (.done i)
                    constructed := st.constructed ++ [i] }
  | some (.done _) => st

/-- Run a schedule (an arbitrary interleaving of caller actions) from a
starting pool state. -/
def raceRun (st : PoolRace) (sched : List Nat) : PoolRace :=
  sched.foldl raceStep st

/-- The starting state of `n` concurrent `get_or_create` callers against
a pool whose entry for the endpoint is `slot`. -/
def raceInit (slot : Option Nat) (n : Nat) : PoolRace :=
  { slot := slot, callers := List.replicate n .start, constructed := [] }

/-! Characterization of the merge loop. -/

/-- The metric sets of the pairs whose outcome is `Ok`. -/
def okNamesOf (l : List (List Metric × Except Error WriteResponse)) :
    List (List Metric) :=
  l.filterMap (fun p => match p.2 with | .ok _ => some p.1 | .error _ => none)

/-- The responses of the pairs whose outcome is `Ok`. -/
def okRespsOf (l : List (List Metric × Except Error WriteResponse)) :
    List WriteResponse :=
  l.filterMap (fun p => match p.2 with | .ok r => some r | .error _ => none)

/-- The `(metrics, error)` records of the pairs whose outcome is `Err`. -/
def errsOf (l : List (List Metric × Except Error WriteResponse)) :
    List (List Metric × Error) :=
  l.filterMap (fun p => match p.2 with | .error e => some (p.1, e) | .ok _ => none)

theorem foldl_mergeStep (l : List (List Metric × Except Error WriteResponse)) :
    ∀ acc : MergeAcc, l.foldl mergeStep acc =
      { success_total :=
          acc.success_total + ((okRespsOf l).map (fun r => r.success)).sum
        failed_total :=
          acc.failed_total + ((okRespsOf l).map (fun r => r.failed)).sum
        ok_metrics := acc.ok_metrics ++ (okNamesOf l).flatten
        errs := acc.errs ++ errsOf l } := by
  induction l with
  | nil => intro acc; simp [okRespsOf, okNamesOf, errsOf]
  | cons p rest ih =>
      intro acc
      obtain ⟨ms, res⟩ := p
      cases res with
      | ok r =>
          simp [mergeStep, okRespsOf, okNamesOf, errsOf, List.filterMap_cons, ih,
            Nat.add_assoc, List.append_assoc]
      | error e =>
          simp [mergeStep, okRespsOf, okNamesOf, errsOf, List.filterMap_cons, ih,
            List.append_assoc]

theorem clusterWriteErrorFrom_eq
    (l : List (List Metric × Except Error WriteResponse)) :
    clusterWriteErrorFrom l =
      { okMetrics := (okNamesOf l).flatten
        okResp := { success := ((okRespsOf l).map (fun r => r.success)).sum
                    failed := ((okRespsOf l).map (fun r => r.failed)).sum }
        errors := errsOf l } := by
  simp [clusterWriteErrorFrom, foldl_mergeStep]

/-- C8: the merge that builds a `ClusterWriteError` from the list of
`(name-set, outcome)` pairs is order-independent — for permuted input
lists the two aggregates have the same summed success and failure
counters, ok-name sets that are permutations of each other, error entry
lists that are permutations of each other, and the same `all_ok` value. -/
theorem clusterWriteErrorFrom_perm_invariant
    (l₁ l₂ : List (List Metric × Except Error WriteResponse))
    (hp : l₁.Perm l₂) :
    (clusterWriteErrorFrom l₁).okResp = (clusterWriteErrorFrom l₂).okResp ∧
    (clusterWriteErrorFrom l₁).okMetrics.Perm (clusterWriteErrorFrom l₂).okMetrics ∧
    (clusterWriteErrorFrom l₁).errors.Perm (clusterWriteErrorFrom l₂).errors ∧
    (clusterWriteErrorFrom l₁).all_ok = (clusterWriteErrorFrom l₂).all_ok := by
  have hok : (okRespsOf l₁).Perm (okRespsOf l₂) := hp.filterMap _
  have hnm : (okNamesOf l₁).Perm (okNamesOf l₂) := hp.filterMap _
  have herr : (errsOf l₁).Perm (errsOf l₂) := hp.filterMap _
  refine ⟨?_, ?_, ?_, ?_⟩
  · simp only [clusterWriteErrorFrom_eq]
    exact congrArg₂ WriteResponse.mk ((hok.map _).sum_eq) ((hok.map _).sum_eq)
  · simpa only [clusterWriteErrorFrom_eq] using hnm.flatten
  · simpa only [clusterWriteErrorFrom_eq] using herr
  · simp only [ClusterWriteError.all_ok, clusterWriteErrorFrom_eq]
    exact herr.isEmpty_eq

/-- Witness for C8 at a concrete two-element list and its swap. -/
theorem clusterWriteErrorFrom_perm_invariant_witness :
    (clusterWriteErrorFrom
        [(["a"], .ok ⟨1, 2⟩), (["b"], .error (.unknown "x"))]).okResp =
      (clusterWriteErrorFrom
        [(["b"], .error (.unknown "x")), (["a"], .ok ⟨1, 2⟩)]).okResp ∧
    (clusterWriteErrorFrom
        [(["a"], .ok ⟨1, 2⟩), (["b"], .error (.unknown "x"))]).okMetrics.Perm
      (clusterWriteErrorFrom
        [(["b"], .error (.unknown "x")), (["a"], .ok ⟨1, 2⟩)]).okMetrics ∧
    (clusterWriteErrorFrom
        [(["a"], .ok ⟨1, 2⟩), (["b"], .error (.unknown "x"))]).errors.Perm
      (clusterWriteErrorFrom
        [(["b"], .error (.unknown "x")), (["a"], .ok ⟨1, 2⟩)]).errors ∧
    (clusterWriteErrorFrom
        [(["a"], .ok ⟨1, 2⟩), (["b"], .error (.unknown "x"))]).all_ok =
      (clusterWriteErrorFrom
        [(["b"], .error (.unknown "x")), (["a"], .ok ⟨1, 2⟩)]).all_ok :=
  clusterWriteErrorFrom_perm_invariant _ _ (List.Perm.swap _ _ _)

/-! The query path. -/

/-- C5 counterexample: with an empty metric set, `query` fails with an
`Unknown`-kind error (message from `src/db_client/cluster.rs` line 33),
not a `Client`-kind one as the claim states; router and network call
traces are empty as claimed. -/
theorem query_empty_metrics_error_is_not_client_kind :
    query { routeRes := fun _ => .ok [] } (fun _ _ => .ok (0 : Nat))
        { metrics := [] } =
      some { result := .error
               (.unknown "Metrics in query request can't be empty in cluster mode")
             routeCalls := [], evictCalls := [], networkCalls := [] } ∧
    (Error.unknown "Metrics in query request can't be empty in cluster mode").isClient
      = false :=
  ⟨rfl, rfl⟩

/-- C5 (amended): for every `QueryRequest` whose name set is empty,
`query` fails immediately with the `Unknown`-kind empty-metrics error and
makes zero router calls, zero evict calls and zero network calls. -/
theorem query_empty_metrics_rejected {Q : Type} (router : Router)
    (net : Endpoint → QueryRequest → Except Error Q) (req : QueryRequest)
    (h : req.metrics = []) :
    query router net req =
      some { result := .error
               (.unknown "Metrics in query request can't be empty in cluster mode")
             routeCalls := [], evictCalls := [], networkCalls := [] } := by
  simp [query, h]

/-- Witness for the amended C5 at a concrete empty request. -/
theorem query_empty_metrics_rejected_witness :
    query { routeRes := fun _ => .ok [] } (fun _ _ => .ok (0 : Nat))
        { metrics := [] } =
      some { result := .error
               (.unknown "Metrics in query request can't be empty in cluster mode")
             routeCalls := [], evictCalls := [], networkCalls := [] } :=
  query_empty_metrics_rejected _ _ _ rfl

/-- C6 counterexample: at a two-metric request whose first metric has no
endpoint, the single `Router.route` call receives both names (not exactly
one as the claim states), and the resulting error is `Unknown`-kind, not
`Client`-kind. -/
theorem query_route_gets_full_metric_list :
    query { routeRes := fun ns => .ok (ns.map (fun _ => none)) }
        (fun _ _ => .ok (0 : Nat)) { metrics := ["a", "b"] } =
      some { result := .error (.unknown "Metric doesn't have corresponding endpoint")
             routeCalls := [["a", "b"]], evictCalls := [], networkCalls := [] } ∧
    ["a", "b"].length ≠ 1 ∧
    (Error.unknown "Metric doesn't have corresponding endpoint").isClient = false :=
  ⟨rfl, by decide, rfl⟩

/-- C6 (amended): for every `QueryRequest` with a non-empty name set,
`query` calls `Router.route` exactly once, passing the full metric list,
and consults only the first entry of the result; if that first entry
yields no endpoint, `query` fails with the `Unknown`-kind "no
corresponding endpoint" error without retrying (no further route call)
and without contacting any node. -/
theorem query_unroutable_first_metric {Q : Type} (router : Router)
    (net : Endpoint → QueryRequest → Except Error Q) (req : QueryRequest)
    (eps : List (Option Endpoint))
    (hne : req.metrics ≠ [])
    (hroute : router.routeRes req.metrics = .ok eps)
    (hep : eps[0]? = some none) :
    query router net req =
      some { result := .error (.unknown "Metric doesn't have corresponding endpoint")
             routeCalls := [req.metrics], evictCalls := [], networkCalls := [] } := by
  have hne' : req.metrics.isEmpty = false := by
    cases hm : req.metrics with
    | nil => exact absurd hm hne
    | cons x xs => rfl
  simp [query, hne', hroute, hep]

/-- Witness for the amended C6 at a concrete unroutable request. -/
theorem query_unroutable_first_metric_witness :
    query { routeRes := fun ns => .ok (ns.map (fun _ => none)) }
        (fun _ _ => .ok (0 : Nat)) { metrics := ["a", "b"] } =
      some { result := .error (.unknown "Metric doesn't have corresponding endpoint")
             routeCalls := [["a", "b"]], evictCalls := [], networkCalls := [] } :=
  query_unroutable_first_metric _ _ { metrics := ["a", "b"] } [none, none]
    (by decide) rfl rfl

/-- C7: when the routed single-node call fails with an error `e`, `query`
evicts the queried metric set from the router's cache and returns exactly
`e` unchanged; when it succeeds, the single-node result is returned
unchanged and no eviction occurs. -/
theorem query_propagates_node_result {Q : Type} (router : Router)
    (net : Endpoint → QueryRequest → Except Error Q) (req : QueryRequest)
    (eps : List (Option Endpoint)) (ep : Endpoint)
    (hne : req.metrics ≠ [])
    (hroute : router.routeRes req.metrics = .ok eps)
    (hep : eps[0]? = some (some ep)) :
    (∀ e : Error, net ep req = .error e →
        query router net req =
          some { result := .error e, routeCalls := [req.metrics]
                 evictCalls := [req.metrics], networkCalls := [ep] }) ∧
    (∀ resp : Q, net ep req = .ok resp →
        query router net req =
          some { result := .ok resp, routeCalls := [req.metrics]
                 evictCalls := [], networkCalls := [ep] }) := by
  have hne' : req.metrics.isEmpty = false := by
    cases hm : req.metrics with
    | nil => exact absurd hm hne
    | cons x xs => rfl
  constructor
  · intro e hnet
    simp [query, hne', hroute, hep, hnet]
  · intro resp hnet
    simp [query, hne', hroute, hep, hnet]

/-- Witness for C7: a failing node call propagates its error after an
evict, and a succeeding one returns its response with no evict. -/
theorem query_propagates_node_result_witness :
    (∀ e : Error,
        (fun (_ : Endpoint) (_ : QueryRequest) =>
            (.error (.rpc "boom") : Except Error Nat)) "A" { metrics := ["a"] }
          = .error e →
        query { routeRes := fun ns => .ok (ns.map (fun _ => some "A")) }
            (fun _ _ => (.error (.rpc "boom") : Except Error Nat))
            { metrics := ["a"] } =
          some { result := .error e, routeCalls := [["a"]]
                 evictCalls := [["a"]], networkCalls := ["A"] }) ∧
    (∀ resp : Nat,
        (fun (_ : Endpoint) (_ : QueryRequest) =>
            (.error (.rpc "boom") : Except Error Nat)) "A" { metrics := ["a"] }
          = .ok resp →
        query { routeRes := fun ns => .ok (ns.map (fun _ => some "A")) }
            (fun _ _ => (.error (.rpc "boom") : Except Error Nat))
            { metrics := ["a"] } =
          some { result := .ok resp, routeCalls := [["a"]]
                 evictCalls := [], networkCalls := ["A"] }) := by
  exact query_propagates_node_result
    { routeRes := fun ns => .ok (ns.map (fun _ => some "A")) }
    (fun _ _ => (.error (.rpc "boom") : Except Error Nat))
    { metrics := ["a"] } [some "A"] "A" (by decide) rfl rfl

/-- C1 exhibits a bug in `ClusterImpl::write`: at a one-entry request
whose only name routes to an endpoint whose write succeeds with one row,
the merged response should be returned as `Ok` with `all_ok()` true, but
the code pushes the empty unroutable group unconditionally as an `Err`
entry, so the aggregate always carries at least one error entry and
`write` returns `Err` with `all_ok()` false. -/
theorem write_all_success_still_returns_error :
    write (fun _ _ => false)
        { routeRes := fun ns => .ok (ns.map (fun _ => some "A")) }
        (fun _ _ => .ok ⟨1, 0⟩) { write_entries := [("cpu", (1 : Nat))] } =
      some { result := .error (.clusterWriteError ["cpu"] ⟨1, 0⟩
               [([], .unknown "Metrics don't have corresponding endpoints")])
             routeCalls := [["cpu"]], evictCalls := [[]]
             networkCalls := [("A", { write_entries := [("cpu", (1 : Nat))] })] } ∧
    (ClusterWriteError.all_ok
        { okMetrics := ["cpu"], okResp := ⟨1, 0⟩
          errors := [([], .unknown "Metrics don't have corresponding endpoints")] })
      = false :=
  ⟨rfl, rfl⟩

/-! The write path: eviction. -/

theorem mem_evictsOf (srf : Nat → String → Bool)
    (pairs : List (List Metric × Except Error WriteResponse)) (x : Metric) :
    x ∈ evictsOf srf pairs ↔
      ∃ p ∈ pairs, x ∈ p.1 ∧
        ∃ code msg, p.2 = .error (.server code msg) ∧ srf code msg = true := by
  simp only [evictsOf, List.mem_flatten, List.mem_filterMap]
  constructor
  · rintro ⟨l, ⟨p, hp, hf⟩, hx⟩
    obtain ⟨ms, res⟩ := p
    cases res with
    | ok r => simp at hf
    | error e =>
        cases e <;> simp at hf
        case server code msg =>
          rcases hf with ⟨hsrf, hl⟩
          subst hl
          exact ⟨(ms, .error (.server code msg)), hp, hx, code, msg, rfl, hsrf⟩
  · rintro ⟨p, hp, hx, code, msg, hres, hsrf⟩
    obtain ⟨ms, res⟩ := p
    simp only at hres
    subst hres
    exact ⟨ms, ⟨(ms, .error (.server code msg)), hp, by simp [hsrf]⟩, hx⟩

/-- C4: when routing itself succeeds, `write` issues its single
`Router.evict` call with exactly the union of the metric sets of the
collected `(metrics, outcome)` pairs whose outcome is a `Server`-kind
error matching the `should_refresh` predicate on its (code, msg); a
metric belongs to the evicted list precisely when it lies in such a pair,
so names from pairs that succeeded or failed with any other error kind
never contribute. -/
theorem write_evicts_exactly_refresh_matches {α : Type}
    (srf : Nat → String → Bool) (router : Router)
    (net : Endpoint → WriteRequest α → Except Error WriteResponse)
    (req : WriteRequest α) (endpoints : List (Option Endpoint)) (part : Partition α)
    (hroute : router.routeRes (shouldRoutes req) = .ok endpoints)
    (hpart : partitionOf req.write_entries endpoints (shouldRoutes req) = some part) :
    ∃ eff : WriteEffects α, write srf router net req = some eff ∧
      eff.evictCalls = [evictsOf srf (pairsOf net part)] ∧
      ∀ x : Metric, x ∈ evictsOf srf (pairsOf net part) ↔
        ∃ p ∈ pairsOf net part, x ∈ p.1 ∧
          ∃ code msg, p.2 = .error (.server code msg) ∧ srf code msg = true := by
  refine ⟨{ result :=
              if (clusterWriteErrorFrom (pairsOf net part)).all_ok then
                .ok (clusterWriteErrorFrom (pairsOf net part)).okResp
              else .error (clusterWriteErrorFrom (pairsOf net part)).toError
            routeCalls := [shouldRoutes req]
            evictCalls := [evictsOf srf (pairsOf net part)]
            networkCalls := part.groups.map (fun g => (g.1, { write_entries := g.2 })) },
    ?_, rfl, mem_evictsOf srf (pairsOf net part)⟩
  simp only [write, hroute, hpart]

/-- Witness for C4 at the spec's running example: "cpu" routes to "A" and
succeeds, "mem" routes to "B" and fails with a refresh-worthy server
error, so exactly ["mem"] is evicted. -/
theorem write_evicts_exactly_refresh_matches_witness :
    ∃ eff : WriteEffects Nat,
      write (fun code _ => code == 130)
          { routeRes := fun ns =>
              .ok (ns.map (fun m => if m == "cpu" then some "A" else some "B")) }
          (fun ep _ => if ep == "A" then .ok ⟨1, 0⟩
                       else .error (.server 130 "not leader"))
          { write_entries := [("cpu", 1), ("mem", 2)] } = some eff ∧
      eff.evictCalls =
        [evictsOf (fun code _ => code == 130)
          (pairsOf (fun ep _ => if ep == "A" then .ok ⟨1, 0⟩
                                else .error (.server 130 "not leader"))
            { groups := [("A", [("cpu", 1)]), ("B", [("mem", 2)])]
              unroutable := [] })] ∧
      ∀ x : Metric,
        x ∈ evictsOf (fun code _ => code == 130)
              (pairsOf (fun ep _ => if ep == "A" then .ok ⟨1, 0⟩
                                    else .error (.server 130 "not leader"))
                { groups := [("A", [("cpu", 1)]), ("B", [("mem", 2)])]
                  unroutable := [] }) ↔
          ∃ p ∈ pairsOf (fun ep _ => if ep == "A" then .ok ⟨1, 0⟩
                                     else .error (.server 130 "not leader"))
                { groups := [("A", [("cpu", 1)]), ("B", [("mem", 2)])]
                  unroutable := [] },
            x ∈ p.1 ∧
            ∃ code msg, p.2 = .error (.server code msg) ∧
              (fun code _ => code == 130) code msg = true := by
  exact write_evicts_exactly_refresh_matches
    (fun code _ => code == 130)
    { routeRes := fun ns =>
        .ok (ns.map (fun m => if m == "cpu" then some "A" else some "B")) }
    (fun ep _ => if ep == "A" then .ok ⟨1, 0⟩
                 else .error (.server 130 "not leader"))
    { write_entries := [("cpu", 1), ("mem", 2)] }
    [some "A", some "B"]
    { groups := [("A", [("cpu", 1)]), ("B", [("mem", 2)])], unroutable := [] }
    rfl rfl

/-! The write path: the partition loop never misses a lookup, so the
`unwrap` in `ClusterImpl::write` cannot panic. -/

theorem lookup_isSome_of_mem_keys {α : Type} (entries : List (Metric × α))
    (m : Metric) (h : m ∈ entries.map (fun p => p.1)) :
    (entries.lookup m).isSome := by
  induction entries with
  | nil => simp at h
  | cons e rest ih =>
      obtain ⟨k, v⟩ := e
      by_cases hk : m = k
      · subst hk
        simp [List.lookup]
      · rcases List.mem_cons.mp h with h1 | h2
        · exact absurd h1 hk
        · have hbk : (m == k) = false := beq_eq_false_iff_ne.mpr hk
          rw [List.lookup, hbk]
          exact ih h2

theorem partition_foldlM_isSome {α : Type} (entries : List (Metric × α)) :
    ∀ (zs : List (Option Endpoint × Metric)) (st : Partition α),
      (∀ z ∈ zs, (entries.lookup z.2).isSome) →
      (zs.foldlM (partitionStep entries) st).isSome := by
  intro zs
  induction zs with
  | nil => intro st _; simp
  | cons z rest ih =>
      intro st hz
      obtain ⟨eo, m⟩ := z
      have hm : (entries.lookup m).isSome := hz (eo, m) (List.mem_cons_self _ _)
      cases eo with
      | none =>
          simpa [List.foldlM_cons, partitionStep] using
            ih _ (fun w hw => hz w (List.mem_cons_of_mem _ hw))
      | some ep =>
          obtain ⟨v, hv⟩ := Option.isSome_iff_exists.mp hm
          by_cases hg : st.groups.any (fun g => g.1 == ep) <;>
            simpa [List.foldlM_cons, partitionStep, hv, hg] using
              ih _ (fun w hw => hz w (List.mem_cons_of_mem _ hw))

/-- C10: provided `Router.route` honours its contract of returning one
entry per input name, neither the unchecked `eps[0]` access in `query`
nor the `unwrap` of the write-entry lookup in `write` can panic (the
embedded functions return `some`); and a contract-violating router (one
returning an empty vector for a routed name) drives `query` into the
panic branch (`none`) rather than an error result. -/
theorem dispatch_no_panic_under_router_contract {Q α : Type} (router : Router)
    (netq : Endpoint → QueryRequest → Except Error Q)
    (netw : Endpoint → WriteRequest α → Except Error WriteResponse)
    (srf : Nat → String → Bool)
    (hcontract : ∀ ns eps, router.routeRes ns = .ok eps → eps.length = ns.length) :
    (∀ req : QueryRequest, (query router netq req).isSome) ∧
    (∀ req : WriteRequest α, (write srf router netw req).isSome) ∧
    query { routeRes := fun _ => .ok ([] : List (Option Endpoint)) } netq
      { metrics := ["a"] } = none := by
  refine ⟨?_, ?_, rfl⟩
  · intro req
    by_cases h : req.metrics.isEmpty
    · simp [query, h]
    · cases hroute : router.routeRes req.metrics with
      | error e => simp [query, h, hroute]
      | ok eps =>
          have hlen : eps.length = req.metrics.length := hcontract _ _ hroute
          cases heps : eps with
          | nil =>
              exfalso
              rw [heps] at hlen
              cases hm : req.metrics with
              | nil => rw [hm] at h; exact h rfl
              | cons a l => rw [hm] at hlen; simp at hlen
          | cons e0 rest =>
              cases e0 with
              | none => simp [query, h, hroute, heps]
              | some ep =>
                  cases hnet : netq ep req <;> simp [query, h, hroute, heps, hnet]
  · intro req
    cases hroute : router.routeRes (shouldRoutes req) with
    | error e => simp [write, hroute]
    | ok endpoints =>
        have hsome :
            (partitionOf req.write_entries endpoints (shouldRoutes req)).isSome := by
          apply partition_foldlM_isSome
          intro z hz
          obtain ⟨eo, m⟩ := z
          apply lookup_isSome_of_mem_keys
          exact (List.of_mem_zip hz).2
        obtain ⟨part, hpart⟩ := Option.isSome_iff_exists.mp hsome
        simp [write, hroute, hpart]

/-- Witness for C10 at a contract-honouring concrete router. -/
theorem dispatch_no_panic_under_router_contract_witness :
    (∀ req : QueryRequest,
        (query { routeRes := fun ns => .ok (ns.map (fun _ => some "A")) }
          (fun _ _ => .ok (0 : Nat)) req).isSome) ∧
    (∀ req : WriteRequest Nat,
        (write (fun _ _ => false)
          { routeRes := fun ns => .ok (ns.map (fun _ => some "A")) }
          (fun _ _ => .ok ⟨1, 0⟩) req).isSome) ∧
    query { routeRes := fun _ => .ok ([] : List (Option Endpoint)) }
      (fun _ _ => .ok (0 : Nat)) { metrics := ["a"] } = none := by
  exact dispatch_no_panic_under_router_contract
    { routeRes := fun ns => .ok (ns.map (fun _ => some "A")) }
    (fun _ _ => .ok (0 : Nat)) (fun _ _ => .ok ⟨1, 0⟩) (fun _ _ => false)
    (by intro ns eps h; injection h with h; rw [← h]; simp)

/-! The connection pool race. -/

theorem getElem?_set_cases {γ : Type} {l : List γ} {i j : Nat} {a c : γ}
    (h : (l.set i a)[j]? = some c) : c = a ∨ l[j]? = some c := by
  by_cases hij : i = j
  · subst hij
    by_cases hi : i < l.length
    · rw [List.getElem?_set_self hi] at h
      exact Or.inl (Option.some.inj h).symm
    · rw [List.set_eq_of_length_le (Nat.le_of_not_lt hi)] at h
      exact Or.inr h
  · rw [List.getElem?_set_ne hij] at h
    exact Or.inr h

/-- Invariant of the race from an already-filled pool entry `h₀`: the slot
keeps `h₀`, nothing is constructed, and every caller is still at `start`
or finished holding `h₀`. -/
def RaceInvFilled (h₀ : Nat) (st : PoolRace) : Prop :=
  st.slot = some h₀ ∧ st.constructed = [] ∧
    ∀ (i : Nat) (c : CallerState), st.callers[i]? = some c → c = .start ∨ c = .done h₀

theorem raceStep_preserves_filled (h₀ : Nat) (st : PoolRace) (i : Nat)
    (hinv : RaceInvFilled h₀ st) : RaceInvFilled h₀ (raceStep st i) := by
  obtain ⟨hslot, hcons, hcall⟩ := hinv
  cases hc : st.callers[i]? with
  | none => simpa [raceStep, hc] using ⟨hslot, hcons, hcall⟩
  | some c =>
      rcases hcall i c hc with hs | hd
      · subst hs
        refine ⟨by simp [raceStep, hc, hslot], by simp [raceStep, hc, hslot, hcons], ?_⟩
        intro j c' hj
        simp only [raceStep, hc, hslot] at hj
        rcases getElem?_set_cases hj with h1 | h2
        · exact Or.inr h1
        · exact hcall j c' h2
      · subst hd
        simpa [raceStep, hc, hslot] using ⟨hslot, hcons, hcall⟩

/-- Invariant of the race from an empty pool entry: a finished caller's
return value is exactly the retained handle, and a retained handle was
constructed by one of the callers. -/
def RaceInvEmpty (st : PoolRace) : Prop :=
  (∀ (i r : Nat), st.callers[i]? = some (.done r) → st.slot = some r) ∧
    ∀ h, st.slot = some h → h ∈ st.constructed

theorem raceStep_preserves_empty (st : PoolRace) (i : Nat)
    (hinv : RaceInvEmpty st) : RaceInvEmpty (raceStep st i) := by
  obtain ⟨hdone, hcons⟩ := hinv
  cases hc : st.callers[i]? with
  | none =>
      have hstep : raceStep st i = st := by simp [raceStep, hc]
      rw [hstep]; exact ⟨hdone, hcons⟩
  | some c =>
      cases c with
      | start =>
          cases hs : st.slot with
          | none =>
              have hstep : raceStep st i =
                  { st with callers := st.callers.set i .racing } := by
                simp [raceStep, hc, hs]
              rw [hstep]
              refine ⟨?_, fun h hh => hcons h hh⟩
              intro j r hj
              rcases getElem?_set_cases hj with h1 | h2
              · exact absurd h1 (by simp)
              · exact hdone j r h2
          | some h =>
              have hstep : raceStep st i =
                  { st with callers := st.callers.set i (.done h) } := by
                simp [raceStep, hc, hs]
              rw [hstep]
              refine ⟨?_, fun h' hh => hcons h' hh⟩
              intro j r hj
              rcases getElem?_set_cases hj with h1 | h2
              · rw [(CallerState.done.inj h1 : r = h)]; exact hs
              · exact hdone j r h2
      | racing =>
          cases hs : st.slot with
          | none =>
              have hstep : raceStep st i =
                  { st with slot := some i
                            callers := st.callers.set i (.done i)
                            constructed := st.constructed ++ [i] } := by
                simp [raceStep, hc, hs]
              rw [hstep]
              constructor
              · intro j r hj
                rcases getElem?_set_cases hj with h1 | h2
                · rw [(CallerState.done.inj h1 : r = i)]
                · exact absurd (hs ▸ hdone j r h2) (by simp)
              · intro h hh
                rw [← Option.some.inj hh]
                exact List.mem_append_right _ (List.mem_singleton_self i)
          | some h =>
              have hstep : raceStep st i =
                  { st with callers := st.callers.set i (.done h)
                            constructed := st.constructed ++ [i] } := by
                simp [raceStep, hc, hs]
              rw [hstep]
              constructor
              · intro j r hj
                rcases getElem?_set_cases hj with h1 | h2
                · rw [(CallerState.done.inj h1 : r = h)]; exact hs
                · exact hdone j r h2
              · intro h' hh
                exact List.mem_append_left _ (hcons h' hh)
      | done r =>
          have hstep : raceStep st i = st := by simp [raceStep, hc]
          rw [hstep]; exact ⟨hdone, hcons⟩

theorem raceRun_preserves_filled (h₀ : Nat) (sched : List Nat) :
    ∀ st : PoolRace, RaceInvFilled h₀ st → RaceInvFilled h₀ (raceRun st sched) := by
  induction sched with
  | nil => intro st h; exact h
  | cons i rest ih =>
      intro st h
      exact ih _ (raceStep_preserves_filled h₀ st i h)

theorem raceRun_preserves_empty (sched : List Nat) :
    ∀ st : PoolRace, RaceInvEmpty st → RaceInvEmpty (raceRun st sched) := by
  induction sched with
  | nil => intro st h; exact h
  | cons i rest ih =>
      intro st h
      exact ih _ (raceStep_preserves_empty st i h)

/-- C9: for any interleaving of `n` concurrent `get_or_create` callers on
one endpoint's pool entry: when the entry already holds a handle `h₀`,
every finished caller returns exactly `h₀`, the entry still holds `h₀`,
and no client is ever constructed; when the entry starts empty, every
finished caller's returned handle is exactly the single retained one
(identity equality of the slot's occupant), which was constructed by one
of the racing callers — so at most one constructed handle is ever
retained and all callers agree on it. -/
theorem get_or_create_single_retained_handle (n : Nat) (sched : List Nat) :
    (∀ h₀ : Nat,
        (raceRun (raceInit (some h₀) n) sched).slot = some h₀ ∧
        (raceRun (raceInit (some h₀) n) sched).constructed = [] ∧
        ∀ (i r : Nat), (raceRun (raceInit (some h₀) n) sched).callers[i]? = some (.done r) →
          r = h₀) ∧
    (∀ (i r : Nat), (raceRun (raceInit none n) sched).callers[i]? = some (.done r) →
        (raceRun (raceInit none n) sched).slot = some r ∧
        r ∈ (raceRun (raceInit none n) sched).constructed) := by
  constructor
  · intro h₀
    have hinit : RaceInvFilled h₀ (raceInit (some h₀) n) := by
      refine ⟨rfl, rfl, ?_⟩
      intro i c hc
      rcases List.getElem?_eq_some_iff.mp hc with ⟨hi, hval⟩
      left
      rw [← hval]
      simp [raceInit]
    obtain ⟨hslot, hcons, hcall⟩ := raceRun_preserves_filled h₀ sched _ hinit
    refine ⟨hslot, hcons, ?_⟩
    intro i r hir
    rcases hcall i (.done r) hir with h1 | h2
    · exact absurd h1 (by simp)
    · exact CallerState.done.inj h2
  · have hinit : RaceInvEmpty (raceInit none n) := by
      refine ⟨?_, ?_⟩
      · intro i r hir
        rcases List.getElem?_eq_some_iff.mp hir with ⟨hi, hval⟩
        have hstart : (raceInit none n).callers[i] = CallerState.start := by
          simp [raceInit]
        rw [hstart] at hval
        exact absurd hval (by simp)
      · intro h hh
        exact absurd hh (by simp [raceInit])
    obtain ⟨hdone, hcons⟩ := raceRun_preserves_empty sched _ hinit
    intro i r hir
    exact ⟨hdone i r hir, hcons r (hdone i r hir)⟩

/-- Witness for C9: two callers interleaved get-get-insert-insert on a
never-seen endpoint, and one caller against a filled entry. -/
theorem get_or_create_single_retained_handle_witness :
    ((∀ h₀ : Nat,
        (raceRun (raceInit (some h₀) 2) [0, 1, 0, 1]).slot = some h₀ ∧
        (raceRun (raceInit (some h₀) 2) [0, 1, 0, 1]).constructed = [] ∧
        ∀ (i r : Nat),
          (raceRun (raceInit (some h₀) 2) [0, 1, 0, 1]).callers[i]? = some (.done r) →
            r = h₀) ∧
      (∀ (i r : Nat), (raceRun (raceInit none 2) [0, 1, 0, 1]).callers[i]? = some (.done r) →
          (raceRun (raceInit none 2) [0, 1, 0, 1]).slot = some r ∧
          r ∈ (raceRun (raceInit none 2) [0, 1, 0, 1]).constructed)) ∧
    raceRun (raceInit none 2) [0, 1, 0, 1] =
      { slot := some 0, callers := [.done 0, .done 0], constructed := [0, 1] } :=
  ⟨get_or_create_single_retained_handle 2 [0, 1, 0, 1], by decide⟩

/-! The write path: the partition preserves the request's name multiset. -/

/-- All metric names kept in a list of endpoint groups, in group order. -/
def groupMetrics {α : Type} (gs : List (Endpoint × List (Metric × α))) :
    List Metric :=
  (gs.map (fun g => g.2.map (fun q => q.1))).flatten

/-- All metric names kept in a partition state: the grouped ones followed
by the unroutable ones. -/
def partMetrics {α : Type} (st : Partition α) : List Metric :=
  groupMetrics st.groups ++ st.unroutable

theorem groupMetrics_cons {α : Type} (g : Endpoint × List (Metric × α))
    (gs : List (Endpoint × List (Metric × α))) :
    groupMetrics (g :: gs) = g.2.map (fun q => q.1) ++ groupMetrics gs := by
  simp [groupMetrics]

theorem groupMetrics_append {α : Type}
    (gs hs : List (Endpoint × List (Metric × α))) :
    groupMetrics (gs ++ hs) = groupMetrics gs ++ groupMetrics hs := by
  simp [groupMetrics]

theorem mem_groupMetrics {α : Type} (gs : List (Endpoint × List (Metric × α)))
    (x : Metric) :
    x ∈ groupMetrics gs ↔ ∃ g ∈ gs, x ∈ g.2.map (fun q => q.1) := by
  simp only [groupMetrics]
  constructor
  · intro hx
    rcases List.mem_flatten.mp hx with ⟨l, hl, hxl⟩
    rcases List.mem_map.mp hl with ⟨g, hgmem, rfl⟩
    exact ⟨g, hgmem, hxl⟩
  · rintro ⟨g, hgmem, hx⟩
    exact List.mem_flatten.mpr
      ⟨g.2.map (fun q => q.1), List.mem_map_of_mem _ hgmem, hx⟩

theorem any_key_eq_false_iff {β γ : Type} [BEq β] [LawfulBEq β]
    (es : List (β × γ)) (k : β) :
    (es.any (fun p => p.1 == k) = false) ↔ k ∉ es.map (fun p => p.1) := by
  rw [← Bool.not_eq_true, List.any_eq_true]
  constructor
  · intro hno hk
    rcases List.mem_map.mp hk with ⟨p, hp, hpk⟩
    exact hno ⟨p, hp, beq_iff_eq.mpr hpk⟩
  · rintro hk ⟨p, hp, hpeq⟩
    exact hk (beq_iff_eq.mp hpeq ▸ List.mem_map_of_mem (fun p => p.1) hp)

theorem insertEntry_of_fresh {α : Type} (es : List (Metric × α)) (m : Metric)
    (v : α) (h : m ∉ es.map (fun p => p.1)) :
    insertEntry es m v = es ++ [(m, v)] := by
  have hf : es.any (fun p => p.1 == m) = false := (any_key_eq_false_iff es m).mpr h
  simp [insertEntry, hf]

theorem append_singleton_perm {γ : Type} (A B : List γ) (x : γ) :
    ((A ++ [x]) ++ B).Perm ((A ++ B) ++ [x]) := by
  rw [List.append_assoc, List.append_assoc]
  exact List.Perm.append_left A List.perm_append_comm

theorem map_group_update_id {α : Type} (ep : Endpoint) (m : Metric) (v : α) :
    ∀ rest : List (Endpoint × List (Metric × α)),
      (∀ g ∈ rest, g.1 ≠ ep) →
      rest.map (fun g => if g.1 == ep then (g.1, insertEntry g.2 m v) else g)
        = rest := by
  intro rest h
  induction rest with
  | nil => rfl
  | cons a t ih =>
      have ha : (a.1 == ep) = false :=
        beq_eq_false_iff_ne.mpr (h a (List.mem_cons_self _ _))
      simp only [List.map_cons, ha]
      rw [ih (fun g hg => h g (List.mem_cons_of_mem _ hg))]
      simp

theorem groupMetrics_update_perm {α : Type} (ep : Endpoint) (m : Metric) (v : α) :
    ∀ gs : List (Endpoint × List (Metric × α)),
      (gs.map (fun g => g.1)).Nodup →
      gs.any (fun g => g.1 == ep) = true →
      m ∉ groupMetrics gs →
      (groupMetrics (gs.map
          (fun g => if g.1 == ep then (g.1, insertEntry g.2 m v) else g))).Perm
        (groupMetrics gs ++ [m]) := by
  intro gs
  induction gs with
  | nil => intro _ h _; simp at h
  | cons g rest ih =>
      intro hnd hany hm
      rw [groupMetrics_cons] at hm
      rw [List.map_cons] at hnd
      obtain ⟨hhead, htail⟩ := List.nodup_cons.mp hnd
      by_cases hg : g.1 = ep
      · have hgb : (g.1 == ep) = true := beq_iff_eq.mpr hg
        have hrest : ∀ g' ∈ rest, g'.1 ≠ ep := by
          intro g' hg' he
          apply hhead
          rw [hg, ← he]
          exact List.mem_map_of_mem (fun q => q.1) hg'
        have hmg : m ∉ g.2.map (fun q => q.1) := fun hx =>
          hm (List.mem_append_left _ hx)
        have hif : (if (g.1 == ep) = true then (g.1, insertEntry g.2 m v) else g)
            = (g.1, insertEntry g.2 m v) := by simp [hgb]
        rw [List.map_cons, map_group_update_id ep m v rest hrest, hif,
          groupMetrics_cons, groupMetrics_cons]
        simp only
        rw [insertEntry_of_fresh g.2 m v hmg, List.map_append]
        simpa using append_singleton_perm (g.2.map (fun q => q.1))
          (groupMetrics rest) m
      · have hgb : (g.1 == ep) = false := beq_eq_false_iff_ne.mpr hg
        have hany' : rest.any (fun g' => g'.1 == ep) = true := by
          simpa [hgb] using hany
        have hperm := ih htail hany'
          (fun hx => hm (List.mem_append_right _ hx))
        have hif : (if (g.1 == ep) = true then (g.1, insertEntry g.2 m v) else g)
            = g := by simp [hgb]
        rw [List.map_cons, hif, groupMetrics_cons, groupMetrics_cons,
          List.append_assoc]
        exact List.Perm.append_left _ hperm

theorem partition_fold_perm {α : Type} (entries : List (Metric × α)) :
    ∀ (zs : List (Option Endpoint × Metric)) (st : Partition α),
      (∀ z ∈ zs, (entries.lookup z.2).isSome) →
      (partMetrics st ++ zs.map (fun z => z.2)).Nodup →
      (st.groups.map (fun g => g.1)).Nodup →
      ∃ st', zs.foldlM (partitionStep entries) st = some st' ∧
        (partMetrics st').Perm (partMetrics st ++ zs.map (fun z => z.2)) ∧
        (st'.groups.map (fun g => g.1)).Nodup := by
  intro zs
  induction zs with
  | nil =>
      intro st _ _ hk
      exact ⟨st, rfl, by simp, hk⟩
  | cons z rest ih =>
      intro st hlk hnd hk
      obtain ⟨eo, m⟩ := z
      simp only [List.map_cons] at hnd
      cases eo with
      | none =>
          have hstep : partitionStep entries st (none, m) =
              some { st with unroutable := st.unroutable ++ [m] } := by
            simp [partitionStep]
          have hpm : partMetrics { st with unroutable := st.unroutable ++ [m] }
              = partMetrics st ++ [m] := by
            simp [partMetrics, List.append_assoc]
          have hnd' : (partMetrics { st with unroutable := st.unroutable ++ [m] }
              ++ rest.map (fun z => z.2)).Nodup := by
            rw [hpm, List.append_assoc, List.singleton_append]
            exact hnd
          obtain ⟨st', hfold, hperm, hk'⟩ := ih
            { st with unroutable := st.unroutable ++ [m] }
            (fun w hw => hlk w (List.mem_cons_of_mem _ hw)) hnd' hk
          refine ⟨st', ?_, ?_, hk'⟩
          · rw [List.foldlM_cons, hstep]
            simpa using hfold
          · rw [List.map_cons]
            rw [hpm, List.append_assoc, List.singleton_append] at hperm
            exact hperm
      | some ep =>
          have hmlk : (entries.lookup m).isSome :=
            hlk (some ep, m) (List.mem_cons_self _ _)
          obtain ⟨v, hv⟩ := Option.isSome_iff_exists.mp hmlk
          have hmnot : m ∉ partMetrics st := fun hmem =>
            List.disjoint_of_nodup_append hnd hmem (List.mem_cons_self _ _)
          by_cases hany : st.groups.any (fun g => g.1 == ep) = true
          · have hstep : partitionStep entries st (some ep, m) =
                some { st with groups := st.groups.map (fun g => if g.1 == ep then (g.1, insertEntry g.2 m v) else g) } := by
              simp [partitionStep, hv, hany]
            have hgperm := groupMetrics_update_perm ep m v st.groups hk hany
              (fun hx => hmnot (List.mem_append_left _ hx))
            have hkeys : (st.groups.map
                (fun g => if g.1 == ep then (g.1, insertEntry g.2 m v) else g)).map
                  (fun g => g.1) = st.groups.map (fun g => g.1) := by
              rw [List.map_map]
              apply List.map_congr_left
              intro g _
              by_cases h : g.1 = ep <;> simp [h]
            have hpm : (partMetrics { st with groups := st.groups.map (fun g => if g.1 == ep then (g.1, insertEntry g.2 m v) else g) }).Perm
                (partMetrics st ++ [m]) := by
              simp only [partMetrics]
              exact (hgperm.append_right st.unroutable).trans
                (append_singleton_perm (groupMetrics st.groups) st.unroutable m)
            have hndA : ((partMetrics st ++ [m]) ++ rest.map (fun z => z.2)).Nodup := by
              rw [List.append_assoc, List.singleton_append]
              exact hnd
            have hnd₁ :=
              ((hpm.append_right (rest.map (fun z => z.2))).symm).nodup hndA
            obtain ⟨st', hfold, hperm, hk'⟩ := ih
              { st with groups := st.groups.map (fun g => if g.1 == ep then (g.1, insertEntry g.2 m v) else g) }
              (fun w hw => hlk w (List.mem_cons_of_mem _ hw)) hnd₁
              (by rw [hkeys]; exact hk)
            refine ⟨st', ?_, ?_, hk'⟩
            · rw [List.foldlM_cons, hstep]
              simpa using hfold
            · rw [List.map_cons]
              refine hperm.trans ((hpm.append_right _).trans (List.Perm.of_eq ?_))
              rw [List.append_assoc, List.singleton_append]
          · have hanyF : st.groups.any (fun g => g.1 == ep) = false :=
              Bool.eq_false_iff.mpr hany
            have hstep : partitionStep entries st (some ep, m) =
                some { st with groups := st.groups ++ [(ep, [(m, v)])] } := by
              simp [partitionStep, hv, hany]
            have hpm : (partMetrics { st with groups := st.groups ++ [(ep, [(m, v)])] }).Perm
                (partMetrics st ++ [m]) := by
              simp only [partMetrics, groupMetrics_append]
              have hone : groupMetrics [(ep, [(m, v)])] = [m] := by
                simp [groupMetrics]
              rw [hone]
              exact append_singleton_perm (groupMetrics st.groups) st.unroutable m
            have hep : ep ∉ st.groups.map (fun g => g.1) :=
              (any_key_eq_false_iff _ _).mp hanyF
            have hkeys : ((st.groups ++ [(ep, [(m, v)])]).map
                (fun g => g.1)).Nodup := by
              rw [List.map_append]
              refine List.Nodup.append hk (List.nodup_singleton ep) ?_
              intro x hx hxep
              have hxe : x = ep := by simpa using hxep
              rw [hxe] at hx
              exact hep hx
            have hndA : ((partMetrics st ++ [m]) ++ rest.map (fun z => z.2)).Nodup := by
              rw [List.append_assoc, List.singleton_append]
              exact hnd
            have hnd₁ :=
              ((hpm.append_right (rest.map (fun z => z.2))).symm).nodup hndA
            obtain ⟨st', hfold, hperm, hk'⟩ := ih
              { st with groups := st.groups ++ [(ep, [(m, v)])] }
              (fun w hw => hlk w (List.mem_cons_of_mem _ hw)) hnd₁ hkeys
            refine ⟨st', ?_, ?_, hk'⟩
            · rw [List.foldlM_cons, hstep]
              simpa using hfold
            · rw [List.map_cons]
              refine hperm.trans ((hpm.append_right _).trans (List.Perm.of_eq ?_))
              rw [List.append_assoc, List.singleton_append]

theorem middle_hoist_perm {γ : Type} (A B C : List γ) :
    (A ++ (B ++ C)).Perm (B ++ (A ++ C)) :=
  List.perm_append_comm_assoc A B C

/-- Every name of the merged aggregate (ok side and error side together)
is a name of some input pair, with multiplicity: the concatenation is a
permutation of the concatenated input name sets. -/
theorem merged_names_perm (l : List (List Metric × Except Error WriteResponse)) :
    ((clusterWriteErrorFrom l).okMetrics ++
        ((clusterWriteErrorFrom l).errors.map (fun q => q.1)).flatten).Perm
      ((l.map (fun p => p.1)).flatten) := by
  simp only [clusterWriteErrorFrom_eq]
  induction l with
  | nil => simp [okNamesOf, errsOf]
  | cons p rest ih =>
      obtain ⟨ms, res⟩ := p
      cases res with
      | ok r =>
          simp only [okNamesOf, errsOf, List.filterMap_cons, List.map_cons,
            List.flatten_cons] at ih ⊢
          rw [List.append_assoc]
          exact List.Perm.append_left ms ih
      | error e =>
          simp only [okNamesOf, errsOf, List.filterMap_cons, List.map_cons,
            List.flatten_cons] at ih ⊢
          exact (middle_hoist_perm _ ms _).trans (List.Perm.append_left ms ih)

/-- The concatenated name sets of the collected pairs are exactly the
partition's names: the grouped ones, then the unroutable ones. -/
theorem pairsOf_names {α : Type}
    (net : Endpoint → WriteRequest α → Except Error WriteResponse)
    (part : Partition α) :
    (((pairsOf net part).map (fun p => p.1)).flatten) = partMetrics part := by
  simp only [pairsOf, List.map_append, List.map_map, List.flatten_append]
  have hcomp : (((fun p => p.1) ∘
        fun g => (List.map (fun q => q.1) g.2, net g.1 { write_entries := g.2 })) :
      Endpoint × List (Metric × α) → List Metric)
      = fun g => List.map (fun q => q.1) g.2 := rfl
  rw [hcomp]
  simp [partMetrics, groupMetrics]

/-- The pushed unroutable entry is always an `Err`, so the aggregate built
by `write` never satisfies `all_ok`. -/
theorem pairsOf_all_ok_false {α : Type}
    (net : Endpoint → WriteRequest α → Except Error WriteResponse)
    (part : Partition α) :
    (clusterWriteErrorFrom (pairsOf net part)).all_ok = false := by
  rw [clusterWriteErrorFrom_eq]
  simp only [ClusterWriteError.all_ok, pairsOf, errsOf, List.filterMap_append]
  simp

theorem zip_map_self {β γ : Type} (f : γ → β) (l : List γ) :
    (l.map f).zip l = l.map (fun x => (f x, x)) := by
  induction l with
  | nil => rfl
  | cons a t ih => simp [ih]

/-- Shared description of one `write` run against a name-wise router
`rf` and a well-formed request: the partition succeeds, `write` returns
the always-error aggregate with a single route call and a single evict
call, and the partition's names are a duplicate-free permutation of the
request's keys. -/
theorem write_run_spec {α : Type} (srf : Nat → String → Bool)
    (rf : Metric → Option Endpoint)
    (net : Endpoint → WriteRequest α → Except Error WriteResponse)
    (req : WriteRequest α) (hnd : (shouldRoutes req).Nodup) :
    ∃ part : Partition α,
      partitionOf req.write_entries ((shouldRoutes req).map rf) (shouldRoutes req)
        = some part ∧
      write srf { routeRes := fun ns => .ok (ns.map rf) } net req = some
        { result := .error (clusterWriteErrorFrom (pairsOf net part)).toError
          routeCalls := [shouldRoutes req]
          evictCalls := [evictsOf srf (pairsOf net part)]
          networkCalls := part.groups.map (fun g => (g.1, { write_entries := g.2 })) } ∧
      (partMetrics part).Perm (shouldRoutes req) ∧
      (partMetrics part).Nodup := by
  have hzs : ((shouldRoutes req).map rf).zip (shouldRoutes req)
      = (shouldRoutes req).map (fun x => (rf x, x)) := zip_map_self rf _
  have hsnd : (((shouldRoutes req).map (fun x => (rf x, x))).map (fun z => z.2))
      = shouldRoutes req := by
    rw [List.map_map]
    exact List.map_id _
  have hlk : ∀ z ∈ ((shouldRoutes req).map (fun x => (rf x, x))),
      (req.write_entries.lookup z.2).isSome := by
    intro z hz
    rcases List.mem_map.mp hz with ⟨x, hx, rfl⟩
    exact lookup_isSome_of_mem_keys _ _ hx
  have hfold := partition_fold_perm req.write_entries
    ((shouldRoutes req).map (fun x => (rf x, x)))
    { groups := [], unroutable := [] }
    hlk
    (by
      rw [hsnd]
      simpa [partMetrics, groupMetrics] using hnd)
    (by simp)
  obtain ⟨part, hf, hperm, _⟩ := hfold
  have hpart : partitionOf req.write_entries ((shouldRoutes req).map rf)
      (shouldRoutes req) = some part := by
    rw [partitionOf, hzs]
    exact hf
  have hperm' : (partMetrics part).Perm (shouldRoutes req) := by
    have := hperm
    rw [hsnd] at this
    simpa [partMetrics, groupMetrics] using this
  refine ⟨part, hpart, ?_, hperm', hperm'.symm.nodup hnd⟩
  have hallok := pairsOf_all_ok_false net part
  simp only [write, hpart, hallok]
  rfl

/-- C2: against a name-wise router and a well-formed request (distinct
keys, as the source `HashMap` guarantees), every name of the request
appears in exactly one place of the aggregate produced by `write`: the
concatenation of the merged ok-names with all error-entry name sets is a
duplicate-free permutation of the request's key list. -/
theorem write_aggregate_partitions_names {α : Type} (srf : Nat → String → Bool)
    (rf : Metric → Option Endpoint)
    (net : Endpoint → WriteRequest α → Except Error WriteResponse)
    (req : WriteRequest α) (hnd : (shouldRoutes req).Nodup) :
    ∃ part : Partition α,
      partitionOf req.write_entries ((shouldRoutes req).map rf) (shouldRoutes req)
        = some part ∧
      write srf { routeRes := fun ns => .ok (ns.map rf) } net req = some
        { result := .error (clusterWriteErrorFrom (pairsOf net part)).toError
          routeCalls := [shouldRoutes req]
          evictCalls := [evictsOf srf (pairsOf net part)]
          networkCalls := part.groups.map (fun g => (g.1, { write_entries := g.2 })) } ∧
      ((clusterWriteErrorFrom (pairsOf net part)).okMetrics ++
          ((clusterWriteErrorFrom (pairsOf net part)).errors.map
            (fun q => q.1)).flatten).Perm (shouldRoutes req) ∧
      ((clusterWriteErrorFrom (pairsOf net part)).okMetrics ++
          ((clusterWriteErrorFrom (pairsOf net part)).errors.map
            (fun q => q.1)).flatten).Nodup := by
  obtain ⟨part, hpart, hw, hperm, _⟩ := write_run_spec srf rf net req hnd
  have hm := merged_names_perm (pairsOf net part)
  rw [pairsOf_names] at hm
  exact ⟨part, hpart, hw, hm.trans hperm, ((hm.trans hperm).symm).nodup hnd⟩

/-- Witness for C2 at a two-entry request with one routable and one
unroutable name. -/
theorem write_aggregate_partitions_names_witness :
    ∃ part : Partition Nat,
      partitionOf [("cpu", (1 : Nat)), ("mem", 2)]
          (["cpu", "mem"].map (fun m => if m == "cpu" then some "A" else none))
          ["cpu", "mem"] = some part ∧
      write (fun _ _ => false)
          { routeRes := fun ns =>
              .ok (ns.map (fun m => if m == "cpu" then some "A" else none)) }
          (fun _ _ => .ok ⟨1, 0⟩)
          { write_entries := [("cpu", (1 : Nat)), ("mem", 2)] } = some
        { result := .error (clusterWriteErrorFrom
            (pairsOf (fun _ _ => .ok ⟨1, 0⟩) part)).toError
          routeCalls := [["cpu", "mem"]]
          evictCalls := [evictsOf (fun _ _ => false)
            (pairsOf (fun _ _ => .ok ⟨1, 0⟩) part)]
          networkCalls := part.groups.map (fun g => (g.1, { write_entries := g.2 })) } ∧
      ((clusterWriteErrorFrom (pairsOf (fun _ _ => .ok ⟨1, 0⟩) part)).okMetrics ++
          ((clusterWriteErrorFrom (pairsOf (fun _ _ => .ok ⟨1, 0⟩) part)).errors.map
            (fun q => q.1)).flatten).Perm ["cpu", "mem"] ∧
      ((clusterWriteErrorFrom (pairsOf (fun _ _ => .ok ⟨1, 0⟩) part)).okMetrics ++
          ((clusterWriteErrorFrom (pairsOf (fun _ _ => .ok ⟨1, 0⟩) part)).errors.map
            (fun q => q.1)).flatten).Nodup := by
  exact write_aggregate_partitions_names (fun _ _ => false)
    (fun m => if m == "cpu" then some "A" else none)
    (fun _ _ => .ok ⟨1, 0⟩)
    { write_entries := [("cpu", 1), ("mem", 2)] } (by decide)

/-! The write path: unroutable names. -/

theorem partitionStep_unroutable_keep {α : Type} (entries : List (Metric × α))
    (st : Partition α) (z : Option Endpoint × Metric) (st₁ : Partition α)
    (h : partitionStep entries st z = some st₁) :
    ∀ x ∈ st.unroutable, x ∈ st₁.unroutable := by
  obtain ⟨eo, m⟩ := z
  cases eo with
  | none =>
      simp only [partitionStep, Option.some.injEq] at h
      subst h
      intro x hx
      exact List.mem_append_left _ hx
  | some ep =>
      cases hv : entries.lookup m with
      | none => simp [partitionStep, hv] at h
      | some v =>
          by_cases hany : st.groups.any (fun g => g.1 == ep) = true
          · simp only [partitionStep, hv, hany, if_true, Option.some.injEq] at h
            subst h
            intro x hx
            exact hx
          · have hanyF : (st.groups.any fun g => g.1 == ep) = false :=
              Bool.eq_false_iff.mpr hany
            simp only [partitionStep, hv, hanyF, Bool.false_eq_true, if_false,
              Option.some.injEq] at h
            subst h
            intro x hx
            exact hx

theorem partitionStep_unroutable_none {α : Type} (entries : List (Metric × α))
    (st : Partition α) (m : Metric) (st₁ : Partition α)
    (h : partitionStep entries st (none, m) = some st₁) :
    m ∈ st₁.unroutable := by
  simp only [partitionStep, Option.some.injEq] at h
  subst h
  exact List.mem_append_right _ (List.mem_singleton_self m)

theorem foldlM_unroutable_keep {α : Type} (entries : List (Metric × α)) :
    ∀ (zs : List (Option Endpoint × Metric)) (st st' : Partition α),
      zs.foldlM (partitionStep entries) st = some st' →
      ∀ x ∈ st.unroutable, x ∈ st'.unroutable := by
  intro zs
  induction zs with
  | nil =>
      intro st st' h x hx
      simp only [List.foldlM_nil] at h
      rw [← Option.some.inj h]
      exact hx
  | cons z rest ih =>
      intro st st' h x hx
      rw [List.foldlM_cons] at h
      cases hstep : partitionStep entries st z with
      | none => rw [hstep] at h; simp at h
      | some st₁ =>
          rw [hstep] at h
          exact ih st₁ st' h x (partitionStep_unroutable_keep entries st z st₁ hstep x hx)

theorem foldlM_unroutable_of_none {α : Type} (entries : List (Metric × α)) :
    ∀ (zs : List (Option Endpoint × Metric)) (st st' : Partition α),
      zs.foldlM (partitionStep entries) st = some st' →
      ∀ m : Metric, (none, m) ∈ zs → m ∈ st'.unroutable := by
  intro zs
  induction zs with
  | nil => intro st st' _ m hm; simp at hm
  | cons z rest ih =>
      intro st st' h m hm
      rw [List.foldlM_cons] at h
      cases hstep : partitionStep entries st z with
      | none => rw [hstep] at h; simp at h
      | some st₁ =>
          rw [hstep] at h
          rcases List.mem_cons.mp hm with h1 | h2
          · rw [← h1] at hstep
            exact foldlM_unroutable_keep entries rest st₁ st' h m
              (partitionStep_unroutable_none entries st m st₁ hstep)
          · exact ih st₁ st' h m h2

/-- C3 (amended): a request name with no routable endpoint lands in the
unroutable group: it appears in the aggregate's pushed error entry, whose
error is the `Unknown`-kind "Metrics don't have corresponding endpoints"
(not a `Client`-kind one), and no dispatched per-endpoint sub-write
contains that name. -/
theorem write_unroutable_name_unknown_entry {α : Type} (srf : Nat → String → Bool)
    (rf : Metric → Option Endpoint)
    (net : Endpoint → WriteRequest α → Except Error WriteResponse)
    (req : WriteRequest α) (m : Metric)
    (hnd : (shouldRoutes req).Nodup)
    (hm : m ∈ shouldRoutes req) (hrf : rf m = none) :
    ∃ part : Partition α,
      partitionOf req.write_entries ((shouldRoutes req).map rf) (shouldRoutes req)
        = some part ∧
      write srf { routeRes := fun ns => .ok (ns.map rf) } net req = some
        { result := .error (clusterWriteErrorFrom (pairsOf net part)).toError
          routeCalls := [shouldRoutes req]
          evictCalls := [evictsOf srf (pairsOf net part)]
          networkCalls := part.groups.map (fun g => (g.1, { write_entries := g.2 })) } ∧
      m ∈ part.unroutable ∧
      (part.unroutable, Error.unknown "Metrics don't have corresponding endpoints")
        ∈ (clusterWriteErrorFrom (pairsOf net part)).errors ∧
      ∀ g ∈ part.groups, m ∉ g.2.map (fun q => q.1) := by
  obtain ⟨part, hpart, hw, hperm, hnodup⟩ := write_run_spec srf rf net req hnd
  have hzmem : ((none : Option Endpoint), m)
      ∈ ((shouldRoutes req).map rf).zip (shouldRoutes req) := by
    rw [zip_map_self]
    exact List.mem_map.mpr ⟨m, hm, by rw [hrf]⟩
  have hur : m ∈ part.unroutable :=
    foldlM_unroutable_of_none req.write_entries
      (((shouldRoutes req).map rf).zip (shouldRoutes req))
      { groups := [], unroutable := [] } part hpart m hzmem
  have hdisj : List.Disjoint (groupMetrics part.groups) part.unroutable :=
    List.disjoint_of_nodup_append hnodup
  have hng : ∀ g ∈ part.groups, m ∉ g.2.map (fun q => q.1) := by
    intro g hg hmem
    exact hdisj ((mem_groupMetrics part.groups m).mpr ⟨g, hg, hmem⟩) hur
  have herr : (part.unroutable,
      Error.unknown "Metrics don't have corresponding endpoints")
      ∈ (clusterWriteErrorFrom (pairsOf net part)).errors := by
    rw [clusterWriteErrorFrom_eq]
    simp only [errsOf]
    apply List.mem_filterMap.mpr
    refine ⟨(part.unroutable,
      .error (.unknown "Metrics don't have corresponding endpoints")), ?_, rfl⟩
    exact List.mem_append_right _ (List.mem_singleton_self _)
  exact ⟨part, hpart, hw, hur, herr, hng⟩

/-- Witness for the amended C3: a two-entry request whose "mem" name has
no endpoint. -/
theorem write_unroutable_name_unknown_entry_witness :
    ∃ part : Partition Nat,
      partitionOf [("cpu", (1 : Nat)), ("mem", 2)]
          (["cpu", "mem"].map (fun m => if m == "cpu" then some "A" else none))
          ["cpu", "mem"] = some part ∧
      write (fun _ _ => false)
          { routeRes := fun ns =>
              .ok (ns.map (fun m => if m == "cpu" then some "A" else none)) }
          (fun _ _ => .ok ⟨1, 0⟩)
          { write_entries := [("cpu", (1 : Nat)), ("mem", 2)] } = some
        { result := .error (clusterWriteErrorFrom
            (pairsOf (fun _ _ => .ok ⟨1, 0⟩) part)).toError
          routeCalls := [["cpu", "mem"]]
          evictCalls := [evictsOf (fun _ _ => false)
            (pairsOf (fun _ _ => .ok ⟨1, 0⟩) part)]
          networkCalls := part.groups.map (fun g => (g.1, { write_entries := g.2 })) } ∧
      "mem" ∈ part.unroutable ∧
      (part.unroutable, Error.unknown "Metrics don't have corresponding endpoints")
        ∈ (clusterWriteErrorFrom (pairsOf (fun _ _ => .ok ⟨1, 0⟩) part)).errors ∧
      ∀ g ∈ part.groups, "mem" ∉ g.2.map (fun q => q.1) := by
  exact write_unroutable_name_unknown_entry (fun _ _ => false)
    (fun m => if m == "cpu" then some "A" else none)
    (fun _ _ => .ok ⟨1, 0⟩)
    { write_entries := [("cpu", 1), ("mem", 2)] } "mem"
    (by decide) (by decide) rfl

/-- C3 counterexample: at a one-entry request whose name has no endpoint,
the aggregate's error entry carrying that name holds an `Unknown`-kind
error, not the `Client`-kind error the claim states. -/
theorem write_unroutable_error_is_not_client_kind :
    write (fun _ _ => false)
        { routeRes := fun ns => .ok (ns.map (fun _ => none)) }
        (fun _ _ => (.ok ⟨0, 0⟩ : Except Error WriteResponse))
        { write_entries := [("m", (1 : Nat))] } =
      some { result := .error (.clusterWriteError [] ⟨0, 0⟩
               [(["m"], .unknown "Metrics don't have corresponding endpoints")])
             routeCalls := [["m"]], evictCalls := [[]]
             networkCalls := [] } ∧
    (Error.unknown "Metrics don't have corresponding endpoints").isClient = false :=
  ⟨rfl, rfl⟩

end CeresDB
